import Mathlib

/-!
Verification development for the document-insight-extraction repository.

Part 1 embeds `src/lambda/document_processor/text_chunker.py` (class
`TextChunker`): Python strings are modelled as `List Char`, Python string
primitives (`split`, `strip`, slicing, membership) are embedded as
executable Lean functions with the same semantics, and the chunking
algorithm is translated statement by statement.

Part 2 embeds `src/lambda/insight_extractor/cache_manager.py` (class
`CacheManager`): the DynamoDB table is an explicit store value, the
relevant DynamoDB operations (query with key condition, scan order,
limit and filter expression; put_item; delete_item) are modelled from
their documented semantics, and each public method is split into the
store interaction and the Python-side response handling (the
`try/except` becomes a match on an `Except` value).
-/

namespace DocInsight

/-- Python `str.isspace` characters relevant to `str.strip()` (ASCII range):
space, tab, newline, carriage return, vertical tab, form feed. -/
def isPySpace (ch : Char) : Bool :=
  ch = ' ' || ch = '\t' || ch = '\n' || ch = '\r' || ch = '\x0b' || ch = '\x0c'

/-- Python `s.strip()`: remove leading and trailing whitespace. -/
def pyStrip (l : List Char) : List Char :=
  ((l.dropWhile isPySpace).reverse.dropWhile isPySpace).reverse

/-- Python `s[a:b]` for `0 ≤ a ≤ b` (clamped at the end of the string). -/
def sliceList (l : List Char) (a b : Nat) : List Char :=
  (l.take b).drop a

/-- Python `s[-k:]` for `k > 0`: the last `min k (length s)` characters. -/
def takeLast (k : Nat) (l : List Char) : List Char :=
  l.drop (l.length - k)

/-- Python `sep in s` (substring containment) for a separator `sep`. -/
def containsSub (sep : List Char) : List Char → Bool
  | [] => sep.isPrefixOf []
  | c :: cs => sep.isPrefixOf (c :: cs) || containsSub sep cs

/-- Worker for `pySplit`.  `gas` is an upper bound on the number of characters
still to scan; it is always called with `gas ≥ s.length`, so the `gas = 0`
case with a non-empty string never fires (each step consumes at least one
character).  On a separator occurrence the accumulated piece is emitted and
the whole separator is skipped (Python scans left to right without overlap). -/
def pySplitGo (sep : List Char) : Nat → List Char → List Char → List (List Char)
  | _, [], acc => [acc.reverse]
  | 0, _ :: _, acc => [acc.reverse]
  | gas + 1, c :: cs, acc =>
    if sep.isPrefixOf (c :: cs) then
      acc.reverse :: pySplitGo sep gas (cs.drop (sep.length - 1)) []
    else
      pySplitGo sep gas cs (c :: acc)

/-- Python `s.split(sep)` for a non-empty separator `sep`: greedy
left-to-right scan, empty pieces are kept. -/
def pySplit (sep s : List Char) : List (List Char) :=
  pySplitGo sep s.length s []

/-- Configuration of `TextChunker.__init__` (text_chunker.py lines 17-32):
`chunk_size` and `chunk_overlap` are token budgets. -/
structure TextChunker where
  chunk_size : Nat
  chunk_overlap : Nat
deriving DecidableEq, Repr

/-- `self.chars_per_token = 4` (text_chunker.py line 30). -/
def TextChunker.chars_per_token (_ : TextChunker) : Nat := 4

/-- `self.max_chars = chunk_size * self.chars_per_token` (line 31). -/
def TextChunker.max_chars (c : TextChunker) : Nat :=
  c.chunk_size * c.chars_per_token

/-- `self.overlap_chars = chunk_overlap * self.chars_per_token` (line 32). -/
def TextChunker.overlap_chars (c : TextChunker) : Nat :=
  c.chunk_overlap * c.chars_per_token

/-- `TextChunker._split_by_characters` (text_chunker.py lines 191-212),
a `while start < len(text)` loop.  The loop need not terminate (when
`overlap_chars ≥ max_chars` the new `start = end - overlap_chars` does not
move forward), so it is embedded with a `fuel` bound on the number of
iterations and returns `none` when the fuel is exhausted, modelling
non-termination.  Subtraction is `Nat` subtraction; for
`overlap_chars ≤ start + max_chars` (in particular whenever
`overlap_chars ≤ max_chars`) it agrees with the Python `int` arithmetic. -/
def splitByChars (maxChars overlapChars : Nat) : Nat → Nat → List Char → Option (List (List Char))
  | fuel, start, text =>
    if start < text.length then
      match fuel with
      | 0 => none
      | fuel + 1 =>
        let e := start + maxChars
        let chunk := sliceList text start e
        let start' := if 0 < overlapChars then e - overlapChars else e
        match splitByChars maxChars overlapChars fuel start' text with
        | none => none
        | some rest => some (chunk :: rest)
    else
      some []

/-- The `for split in splits` loop body of `TextChunker._split_text_recursive`
(text_chunker.py lines 150-184), including the trailing
`if current_chunk: chunks.append(current_chunk.strip())` after the loop.
`recur` is `self._split_text_recursive(·, remaining_separators)`, passed in
by the caller; `chunks` and `current` are the Python `chunks` and
`current_chunk` variables. -/
def processSplits (maxChars overlapChars : Nat) (sep : List Char)
    (recur : List Char → Option (List (List Char))) :
    List (List Char) → List (List Char) → List Char → Option (List (List Char))
  | [], chunks, current =>
    some (if current.isEmpty then chunks else chunks ++ [pyStrip current])
  | split :: splits, chunks, current =>
    let sws := split ++ sep
    if current.length + sws.length ≤ maxChars then
      processSplits maxChars overlapChars sep recur splits chunks (current ++ sws)
    else
      let chunks1 := if current.isEmpty then chunks else chunks ++ [pyStrip current]
      let current1 :=
        if chunks1.isEmpty = false ∧ 0 < overlapChars then
          takeLast overlapChars (chunks1.getLastD []) ++ sws
        else sws
      if maxChars < current1.length then
        match recur current1 with
        | none => none
        | some subChunks =>
          processSplits maxChars overlapChars sep recur splits
            (chunks1 ++ subChunks.dropLast) (subChunks.getLastD [])
      else
        processSplits maxChars overlapChars sep recur splits chunks1 current1

/-- `TextChunker._split_text_recursive` (text_chunker.py lines 117-189).
Recursion is structural on the separator list (the Python recursion passes
`separators[separators.index(separator) + 1:]`, the tail after the current
separator; the separator list contains no duplicates). -/
def splitTextRecursive (maxChars overlapChars fuel : Nat) :
    List (List Char) → List Char → Option (List (List Char))
  | seps, text =>
    if text.length ≤ maxChars then
      some (if text.isEmpty then [] else [text])
    else
      match seps with
      | [] => splitByChars maxChars overlapChars fuel 0 text
      | sep :: rest =>
        if sep.isEmpty then
          splitByChars maxChars overlapChars fuel 0 text
        else if containsSub sep text then
          processSplits maxChars overlapChars sep
            (splitTextRecursive maxChars overlapChars fuel rest)
            (pySplit sep text) [] []
        else
          splitTextRecursive maxChars overlapChars fuel rest text

/-- The separator priority list of `TextChunker._recursive_split`
(text_chunker.py lines 102-113). -/
def separatorList : List (List Char) :=
  [("\n\n").data, ("\n").data, (". ").data, ("! ").data, ("? ").data,
   ("; ").data, (", ").data, (" ").data, ("").data]

/-- Chunk metadata dictionary (text_chunker.py lines 74-78). -/
structure ChunkMeta where
  docId : String
  pageRange : String
  chunkIndex : Nat
deriving DecidableEq, Repr

/-- One element of the list returned by `TextChunker.chunk_text`. -/
structure Chunk where
  text : List Char
  metadata : ChunkMeta
deriving DecidableEq, Repr

/-- The `for idx, chunk_text in enumerate(chunks)` loop of
`TextChunker.chunk_text` (text_chunker.py lines 70-79). -/
def withIndices (doc page : String) : Nat → List (List Char) → List Chunk
  | _, [] => []
  | i, t :: ts => { text := t, metadata := { docId := doc, pageRange := page, chunkIndex := i } } :: withIndices doc page (i + 1) ts

/-- `TextChunker.chunk_text` (text_chunker.py lines 34-86).  `fuel` bounds the
iterations of the character-level fallback loop; `none` models
non-termination of that loop. -/
def TextChunker.chunk_text (c : TextChunker) (fuel : Nat) (text : String)
    (page_range doc_id : String) : Option (List Chunk) :=
  if (pyStrip text.data).isEmpty then
    some []
  else
    match splitTextRecursive c.max_chars c.overlap_chars fuel separatorList text.data with
    | none => none
    | some chunks => some (withIndices doc_id page_range 0 chunks)

/-! ### CacheManager (src/lambda/insight_extractor/cache_manager.py) -/

/-- A failure of the underlying DynamoDB store (any exception raised by a
boto3 call, caught by the `try/except` blocks of cache_manager.py). -/
inductive DBError where
  | failure : String → DBError
deriving DecidableEq, Repr

/-- One DynamoDB item of the insights table (cache_manager.py lines 106-114):
partition key `docId`, sort key `extractionTimestamp` (epoch seconds).
`insights` is an opaque payload, modelled as a string. -/
structure CacheItem where
  docId : String
  extractionTimestamp : Nat
  prompt : String
  insights : String
  modelId : String
  chunkCount : Nat
  expiresAt : Nat
deriving DecidableEq, Repr

/-- The DynamoDB table, as the set of its items (represented as a list;
DynamoDB keeps at most one item per primary key `(docId, extractionTimestamp)`,
which `putItem` maintains). -/
abbrev CacheStore := List CacheItem

/-- DynamoDB `put_item`: inserts the item, replacing any existing item with
the same primary key `(docId, extractionTimestamp)`. -/
def putItem (store : CacheStore) (it : CacheItem) : CacheStore :=
  it :: store.filter
    (fun x => !(x.docId == it.docId && x.extractionTimestamp == it.extractionTimestamp))

/-- DynamoDB `delete_item` by primary key. -/
def deleteItem (store : CacheStore) (d : String) (ts : Nat) : CacheStore :=
  store.filter (fun x => !(x.docId == d && x.extractionTimestamp == ts))

/-- Insert into a list kept sorted by `extractionTimestamp` descending. -/
def insertByTsDesc (it : CacheItem) : List CacheItem → List CacheItem
  | [] => [it]
  | x :: xs =>
    if x.extractionTimestamp ≤ it.extractionTimestamp then it :: x :: xs
    else x :: insertByTsDesc it xs

/-- Sort by `extractionTimestamp` descending (insertion sort). -/
def sortByTsDesc (l : List CacheItem) : List CacheItem :=
  l.foldr insertByTsDesc []

/-- DynamoDB `query` with `KeyConditionExpression=Key('docId').eq(d)` and
`ScanIndexForward=False`: the partition's items, sorted by the sort key
(`extractionTimestamp`) descending. -/
def queryPartition (store : CacheStore) (d : String) : List CacheItem :=
  sortByTsDesc (store.filter (fun x => x.docId == d))

/-- The filter expression of `check_cache` and `get_all_insights`
(`Attr('prompt').eq(prompt) & Attr('expiresAt').gt(current_time)`,
respectively only the `expiresAt` part). -/
def matchesPromptAndTtl (p : String) (now : Nat) (x : CacheItem) : Bool :=
  x.prompt == p && decide (now < x.expiresAt)

/-- The store side of the `query` issued by `CacheManager.check_cache`
(cache_manager.py lines 53-61).  Modelled from DynamoDB's documented query
pipeline: the key condition selects the partition, `ScanIndexForward=False`
orders it by sort key descending, `Limit=1` bounds the number of items
*evaluated* (it is applied BEFORE the filter expression), and the
`FilterExpression` is applied to those evaluated items afterwards.
Single-page responses suffice here since at most one item is evaluated. -/
def queryCheckCache (store : CacheStore) (d p : String) (now : Nat) : List CacheItem :=
  ((queryPartition store d).take 1).filter (matchesPromptAndTtl p now)

/-- The Python side of `CacheManager.check_cache` (lines 49-78): on a query
exception return `None`; otherwise return `response['Items'][0]` if the item
list is non-empty, else `None`. -/
def checkCacheOutcome (qres : Except DBError (List CacheItem)) : Option CacheItem :=
  match qres with
  | .error _ => none
  | .ok items => items.head?

/-- `CacheManager.check_cache` (cache_manager.py lines 35-78) when the store
succeeds, at clock value `now = int(time.time())`. -/
def check_cache (store : CacheStore) (d p : String) (now : Nat) : Option CacheItem :=
  checkCacheOutcome (Except.ok (queryCheckCache store d p now))

/-- `self.ttl_hours = 24` (cache_manager.py line 33). -/
def ttl_hours : Nat := 24

/-- The item built by `CacheManager.store_in_cache` (cache_manager.py lines
102-114): sort key `extractionTimestamp = now`,
`expiresAt = now + ttl_hours * 3600`. -/
def mkCacheItem (d p insights modelId : String) (chunkCount now : Nat) : CacheItem :=
  { docId := d, extractionTimestamp := now, prompt := p, insights := insights,
    modelId := modelId, chunkCount := chunkCount,
    expiresAt := now + ttl_hours * 3600 }

/-- The Python side of `CacheManager.store_in_cache` (lines 101-128): on a
put exception return `False` and the store is unchanged; on success return
`True` with the new store. -/
def storeInCacheOutcome (store : CacheStore) (pres : Except DBError CacheStore) :
    CacheStore × Bool :=
  match pres with
  | .error _ => (store, false)
  | .ok s => (s, true)

/-- `CacheManager.store_in_cache` (cache_manager.py lines 80-128) when the
store succeeds, at clock value `now = int(time.time())`. -/
def store_in_cache (store : CacheStore) (d p insights modelId : String)
    (chunkCount now : Nat) : CacheStore × Bool :=
  storeInCacheOutcome store
    (Except.ok (putItem store (mkCacheItem d p insights modelId chunkCount now)))

/-- The store side of the `query` issued by `CacheManager.get_all_insights`
(cache_manager.py lines 144-148): partition sorted descending, filter
`expiresAt > now`, no limit. -/
def queryAllInsights (store : CacheStore) (d : String) (now : Nat) : List CacheItem :=
  (queryPartition store d).filter (fun x => decide (now < x.expiresAt))

/-- The Python side of `CacheManager.get_all_insights` (lines 140-160):
on a query exception return the empty list, otherwise `response['Items']`. -/
def getAllInsightsOutcome (qres : Except DBError (List CacheItem)) : List CacheItem :=
  match qres with
  | .error _ => []
  | .ok items => items

/-- `CacheManager.get_all_insights` (cache_manager.py lines 130-160) when the
store succeeds, at clock value `now = int(time.time())`. -/
def get_all_insights (store : CacheStore) (d : String) (now : Nat) : List CacheItem :=
  getAllInsightsOutcome (Except.ok (queryAllInsights store d now))

/-- The query-and-delete loop of `CacheManager.invalidate_cache`
(cache_manager.py lines 173-189): query every item of the partition (no
filter, so expired items are included), delete each one by primary key, and
count the deletions. -/
def invalidateLoop (store : CacheStore) (d : String) : CacheStore × Nat :=
  let items := queryPartition store d
  (items.foldl (fun s it => deleteItem s it.docId it.extractionTimestamp) store,
   items.length)

/-- The Python side of `CacheManager.invalidate_cache` (lines 172-199): any
exception (in the query or mid-loop) makes the call return `0`; on success
the returned count is the number of deleted items. -/
def invalidateOutcome (res : Except DBError Nat) : Nat :=
  match res with
  | .error _ => 0
  | .ok n => n

/-- `CacheManager.invalidate_cache` (cache_manager.py lines 162-199) when the
store succeeds: the resulting store and the returned count. -/
def invalidate_cache (store : CacheStore) (d : String) : CacheStore × Nat :=
  ((invalidateLoop store d).1, invalidateOutcome (Except.ok (invalidateLoop store d).2))

/-! ### Helper lemmas about the chunker embedding -/

lemma dropWhile_eq_nil_of_all {p : Char → Bool} {l : List Char}
    (h : ∀ c ∈ l, p c = true) : l.dropWhile p = [] := by
  induction l with
  | nil => rfl
  | cons c cs ih =>
    rw [List.dropWhile_cons_of_pos (h c (List.mem_cons_self c cs))]
    exact ih (fun x hx => h x (List.mem_cons_of_mem c hx))

lemma pyStrip_eq_nil_of_all_space {l : List Char}
    (h : ∀ c ∈ l, isPySpace c = true) : pyStrip l = [] := by
  unfold pyStrip
  rw [dropWhile_eq_nil_of_all h]
  rfl

lemma withIndices_map_chunkIndex (doc page : String) :
    ∀ (cs : List (List Char)) (i : Nat),
      (withIndices doc page i cs).map (fun ch => ch.metadata.chunkIndex) =
        List.range' i cs.length := by
  intro cs
  induction cs with
  | nil => intro i; rfl
  | cons t ts ih =>
    intro i
    rw [List.length_cons, List.range'_succ]
    simpa [withIndices] using ih (i + 1)

lemma withIndices_length (doc page : String) :
    ∀ (cs : List (List Char)) (i : Nat), (withIndices doc page i cs).length = cs.length := by
  intro cs
  induction cs with
  | nil => intro i; rfl
  | cons t ts ih => intro i; simpa [withIndices] using ih (i + 1)

/-! ### Claim C10 -/

/-- Claim C10: for every input text that is empty or consists only of
whitespace, `chunk_text` returns the empty sequence (for every configuration
and any fuel), and this is not an error. -/
theorem c10_whitespace_input_empty (c : TextChunker) (fuel : Nat) (text page_range doc_id : String)
    (h : ∀ ch ∈ text.data, isPySpace ch = true) :
    c.chunk_text fuel text page_range doc_id = some [] := by
  unfold TextChunker.chunk_text
  rw [pyStrip_eq_nil_of_all_space h]
  rfl

/-- Witness for C10 at the concrete whitespace input `"  \n "`. -/
theorem c10_whitespace_input_empty_witness :
    (∀ ch ∈ ("  \n ").data, isPySpace ch = true) ∧
      (TextChunker.mk 5000 819).chunk_text 0 ("  \n ") ("1-10") ("doc-1") = some [] :=
  ⟨by decide, c10_whitespace_input_empty (TextChunker.mk 5000 819) 0 ("  \n ") ("1-10") ("doc-1")
    (by decide)⟩

/-! ### Claim C9 -/

/-- Claim C9: whenever `chunk_text` produces `N` chunks, the `chunkIndex`
metadata values, in output order, are exactly `0, 1, ..., N-1` with no gaps. -/
theorem c9_chunk_indices_sequential (c : TextChunker) (fuel : Nat)
    (text page_range doc_id : String) (chunks : List Chunk)
    (h : c.chunk_text fuel text page_range doc_id = some chunks) :
    chunks.map (fun ch => ch.metadata.chunkIndex) = List.range chunks.length := by
  unfold TextChunker.chunk_text at h
  split at h
  · cases h
    rfl
  · split at h
    · exact absurd h (by simp)
    · cases h
      rw [List.range_eq_range', withIndices_map_chunkIndex, withIndices_length]

/-- Witness for C9 at the concrete input `"A. B. C."` with
`chunk_size = 1`, `chunk_overlap = 0` (three chunks, indices `0, 1, 2`). -/
theorem c9_chunk_indices_sequential_witness :
    ((TextChunker.mk 1 0).chunk_text 10 ("A. B. C.") ("1-1") ("d") =
        some [⟨(("A.").data), ⟨"d", "1-1", 0⟩⟩, ⟨(("B.").data), ⟨"d", "1-1", 1⟩⟩,
              ⟨(("C..").data), ⟨"d", "1-1", 2⟩⟩]) ∧
      ([⟨(("A.").data), ⟨"d", "1-1", 0⟩⟩, ⟨(("B.").data), ⟨"d", "1-1", 1⟩⟩,
        (⟨(("C..").data), ⟨"d", "1-1", 2⟩⟩ : Chunk)].map (fun ch => ch.metadata.chunkIndex) =
        List.range ([⟨(("A.").data), ⟨"d", "1-1", 0⟩⟩, ⟨(("B.").data), ⟨"d", "1-1", 1⟩⟩,
          (⟨(("C..").data), ⟨"d", "1-1", 2⟩⟩ : Chunk)]).length) :=
  ⟨by decide,
   c9_chunk_indices_sequential (TextChunker.mk 1 0) 10 ("A. B. C.") ("1-1") ("d") _ (by decide)⟩

/-! ### Claim C5 -/

/-- Claim C5, counterexample: on the input `"A. B. C."` with maximum
character budget 4 (`chunk_size = 1`) and overlap 0, the code does NOT
produce the chunk texts `["A. ", "B. ", "C."]`: it produces
`["A.", "B.", "C.."]` (each closed chunk is `strip()`ped, and the `". "`
separator is appended to the final fragment `"C."` as well, yielding an
extra period). -/
theorem c5_example_output_cex :
    ((TextChunker.mk 1 0).chunk_text 10 ("A. B. C.") ("1-1") ("d")).map
        (fun cs => cs.map Chunk.text) = some [("A.").data, ("B.").data, ("C..").data] ∧
      [("A.").data, ("B.").data, ("C..").data] ≠ [("A. ").data, ("B. ").data, ("C.").data] := by
  decide

/-- Claim C5, amended: on `"A. B. C."` with maximum character budget 4 and
overlap 0, `chunk_text` splits on the sentence separator `". "` and produces
exactly the chunk texts `["A.", "B.", "C.."]` in that order — each closed
chunk is stripped of its trailing space, and the separator re-appended to the
final fragment adds a second period. -/
theorem c5_example_output_amended :
    (TextChunker.mk 1 0).chunk_text 10 ("A. B. C.") ("1-1") ("d") =
      some [⟨(("A.").data), ⟨"d", "1-1", 0⟩⟩, ⟨(("B.").data), ⟨"d", "1-1", 1⟩⟩,
            ⟨(("C..").data), ⟨"d", "1-1", 2⟩⟩] := by
  decide

/-! ### Claim C1 -/

/-- Characters that are not whitespace, kept; used to compare texts "modulo
whitespace trimming at chunk boundaries": if two texts differ even after
deleting ALL whitespace, no amount of boundary trimming can equate them. -/
def removeWS (l : List Char) : List Char :=
  l.filter (fun ch => !(isPySpace ch))

/-- Claim C1, failing evaluation: with maximum character budget 4
(`chunk_size = 1`) and overlap 0, the input `"ab. cd"` is chunked into
`["ab.", "cd."]`.  With zero overlap nothing is to be stripped from later
chunks, so the claimed reconstruction would require the concatenation
`"ab.cd."` to equal the original `"ab. cd"` up to whitespace trimming at the
boundary — but the two differ even after deleting every whitespace character
(the code appended the `". "` separator to the final fragment `"cd"`, adding
a period that is not in the input).  The chunks therefore do not cover the
original text in the claimed sense. -/
theorem c1_cover_reconstruction_fails_eval :
    ((TextChunker.mk 1 0).chunk_text 10 ("ab. cd") ("1-1") ("d")).map
        (fun cs => cs.map Chunk.text) = some [("ab.").data, ("cd.").data] ∧
      removeWS (("ab.").data ++ ("cd.").data) ≠ removeWS (("ab. cd").data) := by
  decide

/-! ### Claim C4 (counterexample part) -/

/-- Claim C4, counterexample to non-emptiness: with maximum character budget
4 (`chunk_size = 1`) and overlap 0, the input `"\n\n\n\nabcde"` produces the
chunk texts `["", "abcd", "e"]` — the first chunk is EMPTY, because the
accumulated chunk `"\n\n\n\n"` is non-empty when closed but `strip()` reduces
it to the empty string before it is appended. -/
theorem c4_empty_chunk_cex :
    ((TextChunker.mk 1 0).chunk_text 10 ("\n\n\n\nabcde") ("1-1") ("d")).map
        (fun cs => cs.map Chunk.text) = some [[], ("abcd").data, ("e").data] := by
  decide

/-! ### Claim C2 -/

/-- With `max_chars = 4` and `overlap_chars = 4` (i.e. `chunk_overlap =
chunk_size`), the character-level fallback loop of `_split_by_characters`
never advances: `start = (start + 4) - 4 = start`, so no amount of fuel makes
it finish on a 5-character input. -/
lemma splitByChars_overlap_eq_max_none :
    ∀ fuel : Nat, splitByChars 4 4 fuel 0 (("aaaaa").data) = none := by
  intro fuel
  induction fuel with
  | zero => rfl
  | succ n ih =>
    have step : splitByChars 4 4 (n + 1) 0 (("aaaaa").data) =
        (match splitByChars 4 4 n 0 (("aaaaa").data) with
         | none => none
         | some rest => some (sliceList (("aaaaa").data) 0 4 :: rest)) := rfl
    rw [step, ih]

/-- On `"aaaaa"` none of the eight non-empty separators occurs, so
`_split_text_recursive` falls through to the character-level fallback. -/
lemma splitTextRecursive_aaaaa_eq_fallback (fuel : Nat) :
    splitTextRecursive 4 4 fuel separatorList (("aaaaa").data) =
      splitByChars 4 4 fuel 0 (("aaaaa").data) := rfl

/-- Claim C2, failing evaluation: with `chunk_size = 1` and
`chunk_overlap = 1` (so `overlap_chars = max_chars = 4`, a configuration with
`overlapUnits ≥ maxUnitsPerChunk`), `chunk_text` on the separator-free
5-character input `"aaaaa"` returns `none` for EVERY fuel bound: the
character-level fallback loop never advances (`start = end - overlap_chars`
stays at 0), i.e. the call never terminates.  `__init__` contains no check
degrading such a configuration to zero overlap, contradicting the claim that
`chunk_text` terminates for every configuration. -/
theorem c2_overlap_ge_size_never_terminates (fuel : Nat) (page_range doc_id : String) :
    (TextChunker.mk 1 1).chunk_text fuel ("aaaaa") page_range doc_id = none := by
  unfold TextChunker.chunk_text
  rw [if_neg (by decide)]
  rw [show (TextChunker.mk 1 1).max_chars = 4 from rfl,
      show (TextChunker.mk 1 1).overlap_chars = 4 from rfl,
      splitTextRecursive_aaaaa_eq_fallback fuel, splitByChars_overlap_eq_max_none fuel]

/-! ### Claim C4 (length bound): helper lemmas -/

lemma sliceList_length_le (l : List Char) (s m : Nat) :
    (sliceList l s (s + m)).length ≤ m := by
  simp [sliceList, List.length_drop, List.length_take]
  omega

lemma splitByChars_zero (m o start : Nat) (text : List Char) :
    splitByChars m o 0 start text = if start < text.length then none else some [] := rfl

lemma splitByChars_succ (m o n start : Nat) (text : List Char) :
    splitByChars m o (n + 1) start text =
      (if start < text.length then
        match splitByChars m o n (if 0 < o then start + m - o else start + m) text with
        | none => none
        | some rest => some (sliceList text start (start + m) :: rest)
      else some []) := rfl

/-- Every chunk emitted by the character-level fallback is a slice of at most
`max_chars` characters. -/
lemma splitByChars_bounded (m o : Nat) :
    ∀ (fuel start : Nat) (text : List Char) (cs : List (List Char)),
      splitByChars m o fuel start text = some cs → ∀ c ∈ cs, c.length ≤ m := by
  intro fuel
  induction fuel with
  | zero =>
    intro start text cs h c hc
    rw [splitByChars_zero] at h
    split at h
    · exact absurd h (by simp)
    · cases h; simp at hc
  | succ n ih =>
    intro start text cs h c hc
    rw [splitByChars_succ] at h
    split at h
    · cases hrec : splitByChars m o n (if 0 < o then start + m - o else start + m) text with
      | none => rw [hrec] at h; exact absurd h (by simp)
      | some rest =>
        rw [hrec] at h
        cases h
        rcases List.mem_cons.mp hc with rfl | hc'
        · exact sliceList_length_le text start m
        · exact ih _ _ _ hrec c hc'
    · cases h; simp at hc

lemma pyStrip_length_le (l : List Char) : (pyStrip l).length ≤ l.length := by
  unfold pyStrip
  rw [List.length_reverse]
  calc ((l.dropWhile isPySpace).reverse.dropWhile isPySpace).length
      ≤ (l.dropWhile isPySpace).reverse.length :=
        (List.dropWhile_sublist _).length_le
    _ = (l.dropWhile isPySpace).length := List.length_reverse _
    _ ≤ l.length := (List.dropWhile_sublist _).length_le

lemma getLastD_nil_or_mem (l : List (List Char)) (d : List Char) :
    l.getLastD d = d ∨ l.getLastD d ∈ l := by
  rw [List.getLastD_eq_getLast?]
  cases hg : l.getLast? with
  | none => left; rfl
  | some a =>
    right
    obtain ⟨ys, rfl⟩ := List.getLast?_eq_some_iff.mp hg
    simp

lemma processSplits_nil (m o : Nat) (sep : List Char)
    (recur : List Char → Option (List (List Char)))
    (chunks : List (List Char)) (current : List Char) :
    processSplits m o sep recur [] chunks current =
      some (if current.isEmpty then chunks else chunks ++ [pyStrip current]) := rfl

lemma processSplits_cons (m o : Nat) (sep : List Char)
    (recur : List Char → Option (List (List Char))) (split : List Char)
    (splits chunks : List (List Char)) (current : List Char) :
    processSplits m o sep recur (split :: splits) chunks current =
      (if current.length + (split ++ sep).length ≤ m then
        processSplits m o sep recur splits chunks (current ++ (split ++ sep))
      else
        (fun (chunks1 : List (List Char)) =>
          (fun (current1 : List Char) =>
            if m < current1.length then
              match recur current1 with
              | none => none
              | some subChunks =>
                processSplits m o sep recur splits
                  (chunks1 ++ subChunks.dropLast) (subChunks.getLastD [])
            else
              processSplits m o sep recur splits chunks1 current1)
          (if chunks1.isEmpty = false ∧ 0 < o then
            takeLast o (chunks1.getLastD []) ++ (split ++ sep)
          else split ++ sep))
        (if current.isEmpty then chunks else chunks ++ [pyStrip current])) := rfl

/-- Invariant of the accumulation loop: if every already-closed chunk and the
running buffer are within `max_chars`, and the recursive splitter only
returns chunks within `max_chars`, then every chunk of the final result is
within `max_chars`. -/
lemma processSplits_bounded (m o : Nat) (sep : List Char)
    (recur : List Char → Option (List (List Char)))
    (hrec : ∀ t cs, recur t = some cs → ∀ c ∈ cs, c.length ≤ m) :
    ∀ (splits chunks : List (List Char)) (current : List Char) (cs : List (List Char)),
      (∀ c ∈ chunks, c.length ≤ m) → current.length ≤ m →
      processSplits m o sep recur splits chunks current = some cs →
      ∀ c ∈ cs, c.length ≤ m := by
  intro splits
  induction splits with
  | nil =>
    intro chunks current cs hch hcur h c hc
    rw [processSplits_nil] at h
    cases h
    split at hc
    · exact hch c hc
    · rcases List.mem_append.mp hc with hc' | hc'
      · exact hch c hc'
      · rw [List.mem_singleton.mp hc']
        exact le_trans (pyStrip_length_le current) hcur
  | cons split splits ih =>
    intro chunks current cs hch hcur h c hc
    rw [processSplits_cons] at h
    by_cases h1 : current.length + (split ++ sep).length ≤ m
    · rw [if_pos h1] at h
      refine ih chunks (current ++ (split ++ sep)) cs hch ?_ h c hc
      rw [List.length_append]
      omega
    · rw [if_neg h1] at h
      simp only [] at h
      have hch1 : ∀ d ∈ (if current.isEmpty then chunks else chunks ++ [pyStrip current]),
          d.length ≤ m := by
        intro d hd
        split at hd
        · exact hch d hd
        · rcases List.mem_append.mp hd with hd' | hd'
          · exact hch d hd'
          · rw [List.mem_singleton.mp hd']
            exact le_trans (pyStrip_length_le current) hcur
      generalize hg : (if current.isEmpty then chunks else chunks ++ [pyStrip current]) = chunks1 at h hch1
      generalize hg1 : (if chunks1.isEmpty = false ∧ 0 < o then
          takeLast o (chunks1.getLastD []) ++ (split ++ sep)
        else split ++ sep) = current1 at h
      by_cases h2 : m < current1.length
      · rw [if_pos h2] at h
        cases hrec' : recur current1 with
        | none => rw [hrec'] at h; exact absurd h (by simp)
        | some subChunks =>
          rw [hrec'] at h
          have hsub : ∀ d ∈ subChunks, d.length ≤ m := hrec current1 subChunks hrec'
          refine ih _ _ cs ?_ ?_ h c hc
          · intro d hd
            rcases List.mem_append.mp hd with hd' | hd'
            · exact hch1 d hd'
            · exact hsub d ((List.dropLast_sublist subChunks).mem hd')
          · rcases getLastD_nil_or_mem subChunks [] with he | he
            · rw [he]; exact Nat.zero_le m
            · exact hsub _ he
      · rw [if_neg h2] at h
        exact ih chunks1 current1 cs hch1 (Nat.le_of_not_lt h2) h c hc

lemma splitTextRecursive_nil (m o fuel : Nat) (text : List Char) :
    splitTextRecursive m o fuel [] text =
      (if text.length ≤ m then some (if text.isEmpty then [] else [text])
       else splitByChars m o fuel 0 text) := rfl

lemma splitTextRecursive_cons (m o fuel : Nat) (sep : List Char)
    (rest : List (List Char)) (text : List Char) :
    splitTextRecursive m o fuel (sep :: rest) text =
      (if text.length ≤ m then some (if text.isEmpty then [] else [text])
       else if sep.isEmpty then splitByChars m o fuel 0 text
       else if containsSub sep text then
         processSplits m o sep (splitTextRecursive m o fuel rest) (pySplit sep text) [] []
       else splitTextRecursive m o fuel rest text) := rfl

/-- Every chunk returned by `_split_text_recursive` has at most `max_chars`
characters, for every configuration and separator list. -/
lemma splitTextRecursive_bounded (m o fuel : Nat) :
    ∀ (seps : List (List Char)) (text : List Char) (cs : List (List Char)),
      splitTextRecursive m o fuel seps text = some cs → ∀ c ∈ cs, c.length ≤ m := by
  intro seps
  induction seps with
  | nil =>
    intro text cs h c hc
    rw [splitTextRecursive_nil] at h
    split at h
    · cases h
      split at hc
      · simp at hc
      · rw [List.mem_singleton.mp hc]
        omega
    · exact splitByChars_bounded m o fuel 0 text cs h c hc
  | cons sep rest ih =>
    intro text cs h c hc
    rw [splitTextRecursive_cons] at h
    split at h
    · cases h
      split at hc
      · simp at hc
      · rw [List.mem_singleton.mp hc]
        omega
    · split at h
      · exact splitByChars_bounded m o fuel 0 text cs h c hc
      · split at h
        · exact processSplits_bounded m o sep (splitTextRecursive m o fuel rest)
            (fun t cs' h' => ih t cs' h') (pySplit sep text) [] [] cs
            (by intro d hd; simp at hd) (Nat.zero_le m) h c hc
        · exact ih text cs h c hc

lemma withIndices_text_mem (doc page : String) :
    ∀ (cs : List (List Char)) (i : Nat) (ch : Chunk),
      ch ∈ withIndices doc page i cs → ch.text ∈ cs := by
  intro cs
  induction cs with
  | nil => intro i ch h; simp [withIndices] at h
  | cons t ts ih =>
    intro i ch h
    rcases List.mem_cons.mp h with rfl | h'
    · exact List.mem_cons_self _ _
    · exact List.mem_cons_of_mem _ (ih (i + 1) ch h')

/-- Claim C4, amended part: whenever `chunk_text` returns a chunk list, every
chunk except possibly the last has `text` of length at most
`max_chars = chunk_size * chars_per_token` (in fact the proof shows this for
every chunk).  The non-emptiness half of the original claim is refuted by
`c4_empty_chunk_cex`. -/
theorem c4_chunk_length_bound (c : TextChunker) (fuel : Nat)
    (text page_range doc_id : String) (chunks : List Chunk)
    (h : c.chunk_text fuel text page_range doc_id = some chunks) :
    ∀ ch ∈ chunks.dropLast, ch.text.length ≤ c.max_chars := by
  intro ch hch
  have hch' : ch ∈ chunks := (List.dropLast_sublist chunks).mem hch
  unfold TextChunker.chunk_text at h
  split at h
  · cases h; simp at hch'
  · split at h
    · exact absurd h (by simp)
    · cases h
      exact splitTextRecursive_bounded c.max_chars c.overlap_chars fuel separatorList
        text.data _ (by assumption) ch.text (withIndices_text_mem _ _ _ 0 ch hch')

/-- Witness for C4 at the concrete input `"A. B. C."` with `chunk_size = 1`,
`chunk_overlap = 0`: the first produced chunk (`"A."`) respects the bound. -/
theorem c4_chunk_length_bound_witness :
    (⟨(("A.").data), ⟨"d", "1-1", 0⟩⟩ : Chunk).text.length ≤ (TextChunker.mk 1 0).max_chars :=
  c4_chunk_length_bound (TextChunker.mk 1 0) 10 ("A. B. C.") ("1-1") ("d")
    [⟨(("A.").data), ⟨"d", "1-1", 0⟩⟩, ⟨(("B.").data), ⟨"d", "1-1", 1⟩⟩,
     ⟨(("C..").data), ⟨"d", "1-1", 2⟩⟩]
    (by decide) _ (by decide)

/-! ### Cache helper lemmas -/

lemma mem_insertByTsDesc (it x : CacheItem) :
    ∀ l : List CacheItem, x ∈ insertByTsDesc it l ↔ x = it ∨ x ∈ l := by
  intro l
  induction l with
  | nil => simp [insertByTsDesc]
  | cons a l ih =>
    unfold insertByTsDesc
    split
    · simp
    · rw [List.mem_cons, ih, List.mem_cons]
      tauto

lemma length_insertByTsDesc (it : CacheItem) :
    ∀ l : List CacheItem, (insertByTsDesc it l).length = l.length + 1 := by
  intro l
  induction l with
  | nil => rfl
  | cons a l ih =>
    unfold insertByTsDesc
    split
    · simp
    · simp [ih]

lemma mem_sortByTsDesc (x : CacheItem) :
    ∀ l : List CacheItem, x ∈ sortByTsDesc l ↔ x ∈ l := by
  intro l
  induction l with
  | nil => simp [sortByTsDesc]
  | cons a l ih =>
    show x ∈ insertByTsDesc a (sortByTsDesc l) ↔ _
    rw [mem_insertByTsDesc, ih, List.mem_cons]

lemma length_sortByTsDesc :
    ∀ l : List CacheItem, (sortByTsDesc l).length = l.length := by
  intro l
  induction l with
  | nil => rfl
  | cons a l ih =>
    show (insertByTsDesc a (sortByTsDesc l)).length = _
    rw [length_insertByTsDesc, ih, List.length_cons]

/-- Membership after the deletion loop: an item survives iff it was in the
store and its primary key matches none of the queried items. -/
lemma foldl_deleteItem_mem :
    ∀ (items : List CacheItem) (store : CacheStore) (x : CacheItem),
      (x ∈ items.foldl (fun s it => deleteItem s it.docId it.extractionTimestamp) store ↔
        x ∈ store ∧ ∀ it ∈ items,
          ¬(x.docId = it.docId ∧ x.extractionTimestamp = it.extractionTimestamp)) := by
  intro items
  induction items with
  | nil => intro store x; simp
  | cons it its ih =>
    intro store x
    rw [List.foldl_cons, ih]
    simp only [deleteItem, List.mem_filter, List.mem_cons]
    constructor
    · rintro ⟨⟨hx, hpred⟩, hrest⟩
      refine ⟨hx, ?_⟩
      intro j hj
      rcases hj with rfl | hj'
      · simp only [Bool.not_eq_true', Bool.and_eq_false_iff, beq_eq_false_iff_ne] at hpred
        tauto
      · exact hrest j hj'
    · rintro ⟨hx, hall⟩
      refine ⟨⟨hx, ?_⟩, fun j hj => hall j (Or.inr hj)⟩
      have := hall it (Or.inl rfl)
      simp only [Bool.not_eq_true', Bool.and_eq_false_iff, beq_eq_false_iff_ne]
      tauto

/-! ### Claim C7 -/

/-- Claim C7: for every document id with K stored entries (expired or not),
`invalidate_cache` deletes every one of the K entries and returns K, and a
subsequent `get_all_insights` for that document id (at any clock value)
returns the empty sequence. -/
theorem c7_invalidate_removes_all (store : CacheStore) (d : String) (now : Nat) :
    (invalidate_cache store d).2 = (store.filter (fun x => x.docId == d)).length ∧
    (∀ x ∈ store, x.docId = d → x ∉ (invalidate_cache store d).1) ∧
    get_all_insights (invalidate_cache store d).1 d now = [] := by
  have hmemq : ∀ x : CacheItem, x ∈ queryPartition store d ↔ x ∈ store ∧ x.docId = d := by
    intro x
    unfold queryPartition
    rw [mem_sortByTsDesc, List.mem_filter]
    simp
  have h1 : (invalidate_cache store d).1 =
      (queryPartition store d).foldl
        (fun s it => deleteItem s it.docId it.extractionTimestamp) store := rfl
  have hnotin : ∀ x ∈ store, x.docId = d → x ∉ (invalidate_cache store d).1 := by
    intro x hx hd hmem
    rw [h1, foldl_deleteItem_mem] at hmem
    exact hmem.2 x ((hmemq x).mpr ⟨hx, hd⟩) ⟨rfl, rfl⟩
  refine ⟨?_, hnotin, ?_⟩
  · have h2 : (invalidate_cache store d).2 = (queryPartition store d).length := rfl
    rw [h2]
    unfold queryPartition
    exact length_sortByTsDesc _
  · have hone : ∀ x ∈ (invalidate_cache store d).1, ¬(x.docId = d) := by
      intro x hx hd
      have hx' := (foldl_deleteItem_mem _ _ _).mp (h1 ▸ hx)
      exact hnotin x hx'.1 hd hx
    have hfilter : (invalidate_cache store d).1.filter (fun x => x.docId == d) = [] := by
      rw [List.filter_eq_nil_iff]
      intro a ha
      simpa using hone a ha
    unfold get_all_insights getAllInsightsOutcome queryAllInsights queryPartition
    rw [hfilter]
    rfl

/-! ### Claim C8 -/

/-- Claim C8: no public CacheManager operation raises to the caller: when the
underlying store fails with any error during any of the four operations, each
returns its defined fallback value — `check_cache` returns not-found (`none`),
`store_in_cache` returns failure (`false`, store unchanged), `get_all_insights`
returns the empty sequence, and `invalidate_cache` returns 0.  (The embedding
of each `try/except` is total, modelling that no exception escapes.) -/
theorem c8_fallbacks_on_store_failure (e : DBError) (store : CacheStore) :
    checkCacheOutcome (Except.error e) = none ∧
    storeInCacheOutcome store (Except.error e) = (store, false) ∧
    getAllInsightsOutcome (Except.error e) = [] ∧
    invalidateOutcome (Except.error e) = 0 :=
  ⟨rfl, rfl, rfl, rfl⟩

/-! ### Claim C3 -/

/-- Modelled from claim C3's words, NOT from the source: among ALL stored
entries for the document whose prompt equals the given prompt exactly and
whose `expiresAt` is strictly greater than `now`, the one with maximal
`extractionTimestamp`; not-found if no such entry exists. -/
def claimCheckCache (store : CacheStore) (d p : String) (now : Nat) : Option CacheItem :=
  (sortByTsDesc (store.filter (fun x => x.docId == d && matchesPromptAndTtl p now x))).head?

/-- Claim C3, counterexample: two stored entries for the same document and
the same prompt — the newer one (timestamp 2) already expired
(`expiresAt = 5 ≤ now = 10`), the older one (timestamp 1) still valid
(`expiresAt = 100 > now`).  The claim demands the valid older entry, but
`check_cache` returns not-found: the DynamoDB query evaluates only the single
most recent item of the partition (`Limit=1` applies before the
`FilterExpression`), and that item fails the TTL filter. -/
theorem c3_check_cache_misses_valid_entry_cex :
    claimCheckCache
        [⟨"doc", 1, "p", "i1", "m", 3, 100⟩, ⟨"doc", 2, "p", "i2", "m", 3, 5⟩]
        ("doc") ("p") 10 = some ⟨"doc", 1, "p", "i1", "m", 3, 100⟩ ∧
      check_cache
        [⟨"doc", 1, "p", "i1", "m", 3, 100⟩, ⟨"doc", 2, "p", "i2", "m", 3, 5⟩]
        ("doc") ("p") 10 = none := by
  decide

/-- Modelled from the amended claim's words: `check_cache` inspects only the
single most recent entry of the document's partition (the query's `Limit=1`
applies before the filter expression) and returns it iff its prompt matches
exactly and it is unexpired; otherwise not-found. -/
def amendedCheckCache (store : CacheStore) (d p : String) (now : Nat) : Option CacheItem :=
  match (queryPartition store d).head? with
  | none => none
  | some newest => if matchesPromptAndTtl p now newest then some newest else none

/-- Claim C3, amended: `check_cache` returns the most recent stored entry of
the document if that entry's prompt matches exactly and it is unexpired, and
not-found otherwise (so with two non-expired entries for the same document
and prompt it does return the one with the larger `extractionTimestamp`, but
an older matching entry is missed whenever a newer non-matching or expired
entry exists). -/
theorem c3_check_cache_amended (store : CacheStore) (d p : String) (now : Nat) :
    check_cache store d p now = amendedCheckCache store d p now := by
  unfold check_cache checkCacheOutcome queryCheckCache amendedCheckCache
  cases queryPartition store d with
  | nil => rfl
  | cons x xs =>
    show (List.filter _ [x]).head? = _
    by_cases hx : matchesPromptAndTtl p now x = true
    · rw [List.filter_cons_of_pos hx]
      simp [hx]
    · rw [List.filter_cons_of_neg (by simpa using hx)]
      simp [hx]

/-! ### Claim C6 -/

/-- Claim C6, counterexample: two `store_in_cache` calls for the same
document in the same epoch second (`now = 5`) produce the SAME sort key
`(docId, extractionTimestamp)`, and DynamoDB `put_item` replaces the item
with that key: the first stored entry is no longer in the store after the
second call, refuting "all previously stored entries remain unchanged". -/
theorem c6_same_second_overwrite_cex :
    mkCacheItem ("d") ("p1") ("i1") ("m") 1 5 ∈
        (store_in_cache [] ("d") ("p1") ("i1") ("m") 1 5).1 ∧
      mkCacheItem ("d") ("p1") ("i1") ("m") 1 5 ∉
        (store_in_cache (store_in_cache [] ("d") ("p1") ("i1") ("m") 1 5).1
          ("d") ("p2") ("i2") ("m") 1 5).1 := by
  decide

/-- Claim C6, amended: `store_in_cache` writes one new entry whose sort key
is the current epoch second and whose `expiresAt` is creation time + 24
hours, and — provided no existing entry for the same document shares that
epoch second — every previously stored entry remains in the store (an entry
with the same `(docId, second)` key would be overwritten instead). -/
theorem c6_store_preserves_amended (store : CacheStore) (d p insights modelId : String)
    (chunkCount now : Nat)
    (hfresh : ∀ x ∈ store, ¬(x.docId = d ∧ x.extractionTimestamp = now)) :
    (store_in_cache store d p insights modelId chunkCount now).2 = true ∧
    (∀ x ∈ store, x ∈ (store_in_cache store d p insights modelId chunkCount now).1) ∧
    mkCacheItem d p insights modelId chunkCount now ∈
      (store_in_cache store d p insights modelId chunkCount now).1 ∧
    (mkCacheItem d p insights modelId chunkCount now).expiresAt = now + 24 * 3600 := by
  refine ⟨rfl, ?_, ?_, rfl⟩
  · intro x hx
    show x ∈ putItem store (mkCacheItem d p insights modelId chunkCount now)
    unfold putItem
    refine List.mem_cons_of_mem _ (List.mem_filter.mpr ⟨hx, ?_⟩)
    have hf := hfresh x hx
    simp only [mkCacheItem, Bool.not_eq_true', Bool.and_eq_false_iff, beq_eq_false_iff_ne]
    tauto
  · show mkCacheItem d p insights modelId chunkCount now ∈ putItem store _
    exact List.mem_cons_self _ _

/-- Witness for C6 (amended) at the empty store and `now = 5`. -/
theorem c6_store_preserves_amended_witness :
    (store_in_cache [] ("d") ("p") ("i") ("m") 1 5).2 = true ∧
      mkCacheItem ("d") ("p") ("i") ("m") 1 5 ∈
        (store_in_cache [] ("d") ("p") ("i") ("m") 1 5).1 :=
  ⟨(c6_store_preserves_amended [] ("d") ("p") ("i") ("m") 1 5 (by simp)).1,
   (c6_store_preserves_amended [] ("d") ("p") ("i") ("m") 1 5 (by simp)).2.2.1⟩

end DocInsight
